import Mathlib

/-!
Verification of the process-execution core of actionlint (`process.go`):
`cmdExecution`, `concurrentProcess`, `externalCommand` and the executable
resolution logic.  Pure control flow is embedded as Lean functions over an
explicit model of the operating-system behaviour of one subprocess; the
goroutine/semaphore/WaitGroup interaction is embedded as a small-step state
machine over event traces.
-/

namespace Actionlint

/-- Structured counterpart of the `error` values produced by `process.go`.
Each constructor corresponds to one `fmt.Errorf` site (or to a raw error
passed through). -/
inductive GoError where
  /-- Go format `could not make stdin pipe for %s process: %w`. -/
  | stdinPipe (cmd msg : String)
  /-- Go format `could not write to stdin of %s process: %w`. -/
  | stdinWrite (cmd msg : String)
  /-- Go format `%s was terminated. stderr: %q`. -/
  | terminated (cmd stderr : String)
  /-- Go format `%s exited with status %d but stdout was empty. stderr: %q`. -/
  | emptyStdout (cmd : String) (code : Int) (stderr : String)
  /-- a non-`ExitError` error from starting/waiting the process, returned raw -/
  | spawn (msg : String)
  /-- Go format `could not acquire semaphore to run %q: %w`. -/
  | semaAcquire (cmd msg : String)
  /-- an arbitrary error value produced by a caller-supplied callback -/
  | custom (msg : String)
  deriving DecidableEq, Repr

/-- Escape of one character as Go's `%q` verb renders it (printable ASCII
plus the common escapes). -/
def goEscapeChar (c : Char) : String :=
  if c = '"' then ("\\\"")
  else if c = '\\' then ("\\\\")
  else if c = '\n' then ("\\n")
  else if c = '\t' then ("\\t")
  else if c = '\r' then ("\\r")
  else String.singleton c

/-- Rendering of a string by Go's `%q` verb. -/
def goQuote (s : String) : String :=
  "\"" ++ String.join (s.data.map goEscapeChar) ++ "\""

/-- The human-readable message of a `GoError`, exactly as the `fmt.Errorf`
format strings in `process.go` build it. -/
def GoError.message : GoError → String
  | .stdinPipe cmd msg => "could not make stdin pipe for " ++ cmd ++ " process: " ++ msg
  | .stdinWrite cmd msg => "could not write to stdin of " ++ cmd ++ " process: " ++ msg
  | .terminated cmd stderr => cmd ++ " was terminated. stderr: " ++ goQuote stderr
  | .emptyStdout cmd code stderr =>
      cmd ++ " exited with status " ++ toString code ++ " but stdout was empty. stderr: "
        ++ goQuote stderr
  | .spawn msg => msg
  | .semaAcquire cmd msg => "could not acquire semaphore to run " ++ goQuote cmd ++ ": " ++ msg
  | .custom msg => msg

/-- Predicate `strIncl s sub` : `sub` occurs inside `s` (substring containment). -/
abbrev strIncl (s sub : String) : Prop := sub.data <:+: s.data

/-- Predicate `strPref s pre` : `s` starts with `pre`. -/
abbrev strPref (s pre : String) : Prop := pre.data <+: s.data

/-- Model of what the operating system does for one subprocess invocation:
whether creating the stdin pipe fails, whether writing the payload fails,
whether starting/waiting the process fails for a non-exit reason, and
otherwise the exit code (negative = killed by a signal, as Go's
`ExitCode()` reports it) together with the bytes the process writes to
stdout (`outB`), to stderr (`errB`), and the interleaved stream
`cmd.CombinedOutput()` would capture (`combinedB`). -/
structure ProcBehavior where
  stdinPipeErr : Option String
  stdinWriteErr : Option String
  spawnErr : Option String
  exitCode : Int
  outB : String
  errB : String
  combinedB : String
  deriving DecidableEq, Repr

/-- One subprocess invocation: `cmdExecution` from `process.go`. -/
structure cmdExecution where
  cmd : String
  args : List String
  stdin : String
  combineOutput : Bool
  deriving DecidableEq, Repr

/-- The captured stream `cmdExecution.run` works with: `cmd.CombinedOutput()`
when `combineOutput` is set, otherwise `cmd.Output()`. -/
def cmdStdout (e : cmdExecution) (os : ProcBehavior) : String :=
  if e.combineOutput then os.combinedB else os.outB

/-- The `stderr` value `cmdExecution.run` reports in failure messages:
`exitErr.Stderr` (the raw stderr bytes) normally, replaced by the captured
combined stream when `combineOutput` is set. -/
def cmdStderr (e : cmdExecution) (os : ProcBehavior) : String :=
  if e.combineOutput then cmdStdout e os else os.errB

/-- Observable side effects of `cmdExecution.run`, in the order it performs
them. -/
inductive Effect where
  | makePipe
  | writeStdin (payload : String)
  | closePipe
  | startProcess
  deriving DecidableEq, Repr

/-- Function `cmdExecution.run` from `process.go`, instrumented with the list of
side effects it performs, in order.  Mirrors the Go function line by line:
make the stdin pipe (fail ⇒ `stdinPipe` error), write the whole payload
(fail ⇒ close the pipe, `stdinWrite` error), close the pipe, then start the
process via `Output`/`CombinedOutput` and classify the outcome:
non-`ExitError` failure is returned raw; exit code 0 returns the captured
stream; a negative code (signal) is a `terminated` error; a positive code
with empty captured stream is an `emptyStdout` error; a positive code with
non-empty captured stream is returned as a success. -/
def cmdExecution.runWithTrace (e : cmdExecution) (os : ProcBehavior) :
    (Option String × Option GoError) × List Effect :=
  match os.stdinPipeErr with
  | some m => ((none, some (.stdinPipe e.cmd m)), [.makePipe])
  | none =>
    match os.stdinWriteErr with
    | some m =>
        ((none, some (.stdinWrite e.cmd m)), [.makePipe, .writeStdin e.stdin, .closePipe])
    | none =>
      let stdout := cmdStdout e os
      let result : Option String × Option GoError :=
        match os.spawnErr with
        | some m => (none, some (.spawn m))
        | none =>
          if os.exitCode = 0 then
            (some stdout, none)
          else
            let stderr := cmdStderr e os
            if os.exitCode < 0 then
              (none, some (.terminated e.cmd stderr))
            else if stdout.length = 0 then
              (none, some (.emptyStdout e.cmd os.exitCode stderr))
            else
              (some stdout, none)
      (result, [.makePipe, .writeStdin e.stdin, .closePipe, .startProcess])

/-- Function `cmdExecution.run`: the `([]byte, error)` pair the Go function returns. -/
def cmdExecution.run (e : cmdExecution) (os : ProcBehavior) :
    Option String × Option GoError :=
  (e.runWithTrace os).1

/-! ## Executable resolution (`resolveExternalCommand`, `newCommandRunner`)

The two external collaborators — `execabs.LookPath` (search-path lookup)
and `shellwords.Parse` (quote-aware command-line tokenizer) — are modelled
as oracle functions bundled in `LookupEnv`; each returns either a value or
the error the library would report. -/

/-- Oracles for the environment-dependent collaborators of
`resolveExternalCommand`. -/
structure LookupEnv where
  lookPath : String → Except String String
  shellwordsParse : String → Except String (List String)

/-- Function `resolveExternalCommand` from `process.go`: try `LookPath` on the whole
string; on failure try to tokenize it as a command line, and if tokenizing
succeeds with a non-empty token list whose head resolves on the search
path, return that path with the remaining tokens as baked-in arguments;
otherwise return the error of the first `LookPath` call. -/
def resolveExternalCommand (env : LookupEnv) (exe : String) :
    Except String (String × List String) :=
  match env.lookPath exe with
  | .ok c => .ok (c, [])
  | .error err =>
    -- `if a, err := shellwords.Parse(exe); err == nil && len(a) > 0`
    match env.shellwordsParse exe with
    | .ok (w :: rest) =>
      match env.lookPath w with
      | .ok c => .ok (c, rest)
      | .error _ => .error err
    | .ok [] => .error err
    | .error _ => .error err

/-- Struct `externalCommand` from `process.go` (the `proc` pool pointer and the
`errgroup.Group` are modelled separately, by the trace/result models). -/
structure externalCommand where
  exe : String
  args : List String
  combineOutput : Bool
  deriving DecidableEq, Repr

/-- Method `concurrentProcess.newCommandRunner`: resolve the executable and build
the handle; a resolution failure is returned as-is and no handle is made. -/
def newCommandRunner (env : LookupEnv) (exe : String) (combineOutput : Bool) :
    Except String externalCommand :=
  match resolveExternalCommand env exe with
  | .error err => .error err
  | .ok pa => .ok ⟨pa.1, pa.2, combineOutput⟩

/-- The execution unit `externalCommand.run` constructs and submits to the
pool: the handle's baked-in arguments (when any) followed by the extra
arguments, the handle's executable, the caller's stdin, the handle's
combine flag.  Mirrors the `if len(cmd.args) > 0` block of the Go code. -/
def externalCommand.execution (cmd : externalCommand) (args : List String)
    (stdin : String) : cmdExecution :=
  let args' := if cmd.args.length > 0 then cmd.args ++ args else args
  ⟨cmd.exe, args', stdin, cmd.combineOutput⟩

/-- A concrete lookup environment for exercising resolution: `echo` is on
the search path, `echo hello` tokenizes, an unterminated quote does not,
and the empty string tokenizes to no tokens. -/
def c2Env : LookupEnv :=
  LookupEnv.mk
    (fun s => if s = "echo" then Except.ok ("/bin/echo") else Except.error ("file not found"))
    (fun s =>
      if s = "" then Except.ok []
      else if s = "echo hello" then Except.ok ["echo", "hello"]
      else if s = "this-command-does-not-exist" then
        Except.ok ["this-command-does-not-exist"]
      else Except.error ("invalid command line string"))

/-- A concrete lookup environment where only `good` resolves and no string
tokenizes as a command line. -/
def c8Env : LookupEnv :=
  LookupEnv.mk
    (fun s => if s = "good" then Except.ok ("/bin/good") else Except.error ("file not found"))
    (fun _ => Except.error ("invalid command line string"))

/-! ## Worker result and per-handle error group

`concurrentProcess.run` spawns a goroutine through the handle's
`errgroup.Group`; the goroutine acquires the semaphore (failure ⇒ a
`semaAcquire` error, callback never called), otherwise runs the execution
unit and returns whatever the callback returns.  `errgroup.Group` records
the first non-nil error returned by any of its goroutines and `Wait`
returns it; this is modelled on the list of goroutine results in
completion order. -/

/-- Result of the goroutine body of `concurrentProcess.run` for one unit:
`acq` is the result of `sema.Acquire`, `callback` the caller-supplied
callback receiving the unit's `(stdout, error)`. -/
def concurrentProcess.runWorker (exe : cmdExecution) (acq : Except String Unit)
    (os : ProcBehavior)
    (callback : Option String → Option GoError → Option GoError) : Option GoError :=
  match acq with
  | .error err => some (.semaAcquire exe.cmd err)
  | .ok _ =>
    let r := exe.run os
    callback r.1 r.2

/-- Behaviour of `errgroup.Group.Wait` on the goroutine results in completion order:
the first non-nil error, or nil when all returned nil.  Modelled from the
documented semantics of `golang.org/x/sync/errgroup`. -/
def errgroupWait (results : List (Option GoError)) : Option GoError :=
  results.findSome? id

/-- Method `externalCommand.wait` for handle `h`, given the pool-wide log of
completed goroutines as `(handle id, returned error)` pairs in completion
order: each handle's `errgroup.Group` only sees its own goroutines. -/
def externalCommand.waitResult (h : Nat) (log : List (Nat × Option GoError)) :
    Option GoError :=
  errgroupWait ((log.filter (fun p => p.1 == h)).map Prod.snd)

/-! ## Trace model of `concurrentProcess`

`concurrentProcess.run` does `wg.Add(1)` and spawns a goroutine that
acquires the weighted semaphore (on failure it returns an error and, via
`defer`, does `wg.Done()`), runs the unit, releases the semaphore, invokes
the callback, and then `wg.Done()`s.  `concurrentProcess.wait` is
`wg.Wait()`.  This is embedded as a state machine: each scheduled unit `i`
has a program counter recording how far its worker has progressed, and a
trace is a list of atomic events, validated by `step`.  The per-unit event
order encoded by the guards is exactly the statement order of the Go
worker: `sched` (wg.Add + go), then either `acqFail` (Acquire error) and
`done` (deferred wg.Done), or `acqOk`, `exited` (the subprocess finished
or failed to spawn — `exec.run` returned), `rel` (sema.Release), `cb`
(callback), `done`.  `poolWaitRet` is a return of `wg.Wait()`, enabled
only when no scheduled unit is still in flight. -/

/-- Program counter of one unit's worker. -/
inductive Pc where
  | idle | scheduled | acquired | ran | released | cbDone | acqFailed | doneOk | doneFail
  deriving DecidableEq, Repr

/-- Atomic events of the pool, indexed by unit. -/
inductive Ev where
  | sched (i : Nat)
  | acqOk (i : Nat)
  | acqFail (i : Nat)
  | exited (i : Nat)
  | rel (i : Nat)
  | cb (i : Nat)
  | done (i : Nat)
  | poolWaitRet
  deriving DecidableEq, Repr

/-- Pool state: the semaphore capacity and each unit's program counter. -/
structure PoolSt where
  cap : Nat
  pcs : List Pc
  deriving DecidableEq, Repr

/-- Program counter of unit `i` (`idle` = not yet scheduled). -/
def PoolSt.pc (s : PoolSt) (i : Nat) : Pc := s.pcs.getD i .idle

def PoolSt.setPc (s : PoolSt) (i : Nat) (p : Pc) : PoolSt := ⟨s.cap, s.pcs.set i p⟩

/-- A unit currently holds a semaphore slot between `acqOk` and `rel`. -/
def Pc.holding : Pc → Bool
  | .acquired => true
  | .ran => true
  | _ => false

/-- Number of semaphore slots currently held. -/
def PoolSt.holders (s : PoolSt) : Nat := (s.pcs.filter Pc.holding).length

/-- A unit whose worker has returned (`wg.Done` executed). -/
def Pc.isDone : Pc → Bool
  | .doneOk => true
  | .doneFail => true
  | _ => false

/-- A unit contributing nothing to the `WaitGroup` counter. -/
def Pc.idleOrDone (p : Pc) : Bool := p == .idle || p.isDone

/-- A unit between `wg.Add(1)` and `wg.Done()`. -/
def Pc.inFlight (p : Pc) : Bool := !(p == .idle) && !p.isDone

/-- The `WaitGroup` counter of the pool: scheduled but not yet finished units. -/
def PoolSt.wg (s : PoolSt) : Nat := s.pcs.countP Pc.inFlight

/-- One atomic event: `some` next state when the event is enabled. -/
def step (s : PoolSt) : Ev → Option PoolSt
  | .sched i =>
    if i < s.pcs.length ∧ s.pc i = .idle then some (s.setPc i .scheduled) else none
  | .acqOk i =>
    if s.pc i = .scheduled ∧ s.holders < s.cap then some (s.setPc i .acquired) else none
  | .acqFail i =>
    if s.pc i = .scheduled then some (s.setPc i .acqFailed) else none
  | .exited i =>
    if s.pc i = .acquired then some (s.setPc i .ran) else none
  | .rel i =>
    if s.pc i = .ran then some (s.setPc i .released) else none
  | .cb i =>
    if s.pc i = .released then some (s.setPc i .cbDone) else none
  | .done i =>
    if s.pc i = .cbDone then some (s.setPc i .doneOk)
    else if s.pc i = .acqFailed then some (s.setPc i .doneFail) else none
  | .poolWaitRet =>
    if s.pcs.all Pc.idleOrDone then some s else none

/-- Run a trace of events from a state; `none` when some event is not
enabled where it occurs (the trace is not a possible interleaving). -/
def runTrace (s : PoolSt) : List Ev → Option PoolSt
  | [] => some s
  | e :: t =>
    match step s e with
    | some s1 => runTrace s1 t
    | none => none

/-- Fresh pool of capacity `cap` with `n` potential units. -/
def initSt (cap n : Nat) : PoolSt := ⟨cap, List.replicate n Pc.idle⟩

/-- The unique event that moves a unit's program counter into a given
non-`idle` state. -/
def entryEv : Pc → Nat → Ev
  | .idle, _ => .poolWaitRet
  | .scheduled, i => .sched i
  | .acquired, i => .acqOk i
  | .acqFailed, i => .acqFail i
  | .ran, i => .exited i
  | .released, i => .rel i
  | .cbDone, i => .cb i
  | .doneOk, i => .done i
  | .doneFail, i => .done i

/-- The program-counter value from which `entryEv` moves into a state. -/
def prevPc : Pc → Pc
  | .idle => .idle
  | .scheduled => .idle
  | .acquired => .scheduled
  | .acqFailed => .scheduled
  | .ran => .acquired
  | .released => .ran
  | .cbDone => .released
  | .doneOk => .cbDone
  | .doneFail => .acqFailed

/-- Counts `sched` events. -/
def isSchedEv : Ev → Bool
  | .sched _ => true
  | _ => false

/-- Counts `done` events. -/
def isDoneEv : Ev → Bool
  | .done _ => true
  | _ => false

/-- States reached after `sched`. -/
def Pc.schedSide (p : Pc) : Bool := !(p == .idle)

/-- States reached after `acqOk`. -/
def Pc.okSide : Pc → Bool
  | .acquired => true
  | .ran => true
  | .released => true
  | .cbDone => true
  | .doneOk => true
  | _ => false

/-- States reached after `acqFail`. -/
def Pc.failSide : Pc → Bool
  | .acqFailed => true
  | .doneFail => true
  | _ => false

/-- States reached after `exited`. -/
def Pc.exitSide : Pc → Bool
  | .ran => true
  | .released => true
  | .cbDone => true
  | .doneOk => true
  | _ => false

/-- States reached after `rel`. -/
def Pc.relSide : Pc → Bool
  | .released => true
  | .cbDone => true
  | .doneOk => true
  | _ => false

/-- States reached after `cb`. -/
def Pc.cbSide : Pc → Bool
  | .cbDone => true
  | .doneOk => true
  | _ => false

/-! ### Basic facts about the trace machine -/

theorem PoolSt.pc_lt {s : PoolSt} {i : Nat} (h : s.pc i ≠ .idle) : i < s.pcs.length := by
  by_contra hn
  push_neg at hn
  exact h (List.getD_eq_default _ _ hn)

theorem PoolSt.pc_setPc_self {s : PoolSt} {i : Nat} (p : Pc) (h : i < s.pcs.length) :
    (s.setPc i p).pc i = p := by
  simp [PoolSt.pc, PoolSt.setPc, List.getD_eq_getElem?_getD, List.getElem?_set_self',
    List.getElem?_eq_getElem h]

theorem PoolSt.pc_setPc_ne {s : PoolSt} {i j : Nat} (p : Pc) (h : i ≠ j) :
    (s.setPc i p).pc j = s.pc j := by
  simp [PoolSt.pc, PoolSt.setPc, List.getD_eq_getElem?_getD, List.getElem?_set_ne h]

theorem PoolSt.pc_setPc_cases (s : PoolSt) (j : Nat) (p : Pc) (hlt : j < s.pcs.length)
    (i : Nat) :
    (s.setPc j p).pc i = s.pc i ∨ (i = j ∧ (s.setPc j p).pc i = p) := by
  by_cases hij : i = j
  · subst hij
    exact Or.inr ⟨rfl, s.pc_setPc_self p hlt⟩
  · exact Or.inl (s.pc_setPc_ne p fun h => hij h.symm)

/-- How one step can affect unit `i`'s program counter: either not at all,
or it is the unique transition labelled by the corresponding event. -/
theorem step_pc_change {s s' : PoolSt} {e : Ev} (i : Nat) (h : step s e = some s') :
    s'.pc i = s.pc i ∨
      (e = .sched i ∧ s.pc i = .idle ∧ s'.pc i = .scheduled) ∨
      (e = .acqOk i ∧ s.pc i = .scheduled ∧ s'.pc i = .acquired) ∨
      (e = .acqFail i ∧ s.pc i = .scheduled ∧ s'.pc i = .acqFailed) ∨
      (e = .exited i ∧ s.pc i = .acquired ∧ s'.pc i = .ran) ∨
      (e = .rel i ∧ s.pc i = .ran ∧ s'.pc i = .released) ∨
      (e = .cb i ∧ s.pc i = .released ∧ s'.pc i = .cbDone) ∨
      (e = .done i ∧
        ((s.pc i = .cbDone ∧ s'.pc i = .doneOk) ∨
          (s.pc i = .acqFailed ∧ s'.pc i = .doneFail))) := by
  cases e with
  | sched j =>
    simp only [step] at h
    split at h
    · next hg =>
      cases h
      rcases s.pc_setPc_cases j .scheduled hg.1 i with heq | ⟨hij, heq⟩
      · exact Or.inl heq
      · subst hij
        exact Or.inr (Or.inl ⟨rfl, hg.2, heq⟩)
    · exact absurd h (by simp)
  | acqOk j =>
    simp only [step] at h
    split at h
    · next hg =>
      cases h
      have hlt : j < s.pcs.length := PoolSt.pc_lt (by rw [hg.1]; simp)
      rcases s.pc_setPc_cases j .acquired hlt i with heq | ⟨hij, heq⟩
      · exact Or.inl heq
      · subst hij
        exact Or.inr (Or.inr (Or.inl ⟨rfl, hg.1, heq⟩))
    · exact absurd h (by simp)
  | acqFail j =>
    simp only [step] at h
    split at h
    · next hg =>
      cases h
      have hlt : j < s.pcs.length := PoolSt.pc_lt (by rw [hg]; simp)
      rcases s.pc_setPc_cases j .acqFailed hlt i with heq | ⟨hij, heq⟩
      · exact Or.inl heq
      · subst hij
        exact Or.inr (Or.inr (Or.inr (Or.inl ⟨rfl, hg, heq⟩)))
    · exact absurd h (by simp)
  | exited j =>
    simp only [step] at h
    split at h
    · next hg =>
      cases h
      have hlt : j < s.pcs.length := PoolSt.pc_lt (by rw [hg]; simp)
      rcases s.pc_setPc_cases j .ran hlt i with heq | ⟨hij, heq⟩
      · exact Or.inl heq
      · subst hij
        exact Or.inr (Or.inr (Or.inr (Or.inr (Or.inl ⟨rfl, hg, heq⟩))))
    · exact absurd h (by simp)
  | rel j =>
    simp only [step] at h
    split at h
    · next hg =>
      cases h
      have hlt : j < s.pcs.length := PoolSt.pc_lt (by rw [hg]; simp)
      rcases s.pc_setPc_cases j .released hlt i with heq | ⟨hij, heq⟩
      · exact Or.inl heq
      · subst hij
        exact Or.inr (Or.inr (Or.inr (Or.inr (Or.inr (Or.inl ⟨rfl, hg, heq⟩)))))
    · exact absurd h (by simp)
  | cb j =>
    simp only [step] at h
    split at h
    · next hg =>
      cases h
      have hlt : j < s.pcs.length := PoolSt.pc_lt (by rw [hg]; simp)
      rcases s.pc_setPc_cases j .cbDone hlt i with heq | ⟨hij, heq⟩
      · exact Or.inl heq
      · subst hij
        exact Or.inr (Or.inr (Or.inr (Or.inr (Or.inr (Or.inr (Or.inl ⟨rfl, hg, heq⟩))))))
    · exact absurd h (by simp)
  | done j =>
    simp only [step] at h
    split at h
    · next hg =>
      cases h
      have hlt : j < s.pcs.length := PoolSt.pc_lt (by rw [hg]; simp)
      rcases s.pc_setPc_cases j .doneOk hlt i with heq | ⟨hij, heq⟩
      · exact Or.inl heq
      · subst hij
        exact Or.inr (Or.inr (Or.inr (Or.inr (Or.inr (Or.inr (Or.inr
          ⟨rfl, Or.inl ⟨hg, heq⟩⟩))))))
    · split at h
      · next hg =>
        cases h
        have hlt : j < s.pcs.length := PoolSt.pc_lt (by rw [hg]; simp)
        rcases s.pc_setPc_cases j .doneFail hlt i with heq | ⟨hij, heq⟩
        · exact Or.inl heq
        · subst hij
          exact Or.inr (Or.inr (Or.inr (Or.inr (Or.inr (Or.inr (Or.inr
            ⟨rfl, Or.inr ⟨hg, heq⟩⟩))))))
      · exact absurd h (by simp)
  | poolWaitRet =>
    simp only [step] at h
    split at h
    · cases h
      exact Or.inl rfl
    · exact absurd h (by simp)

theorem runTrace_cons {s m : PoolSt} {e : Ev} {t : List Ev} :
    runTrace s (e :: t) = some m ↔ ∃ s1, step s e = some s1 ∧ runTrace s1 t = some m := by
  cases hs : step s e <;> simp [runTrace, hs]

theorem runTrace_append {s m : PoolSt} {t1 t2 : List Ev}
    (h : runTrace s (t1 ++ t2) = some m) :
    ∃ m1, runTrace s t1 = some m1 ∧ runTrace m1 t2 = some m := by
  induction t1 generalizing s with
  | nil => exact ⟨s, rfl, h⟩
  | cons e t ih =>
    rw [List.cons_append] at h
    rcases runTrace_cons.mp h with ⟨s1, hs, hrest⟩
    rcases ih hrest with ⟨m1, h1, h2⟩
    exact ⟨m1, runTrace_cons.mpr ⟨s1, hs, h1⟩, h2⟩

theorem runTrace_split {s m : PoolSt} {t1 t2 : List Ev} {e : Ev}
    (h : runTrace s (t1 ++ e :: t2) = some m) :
    ∃ m1 m2, runTrace s t1 = some m1 ∧ step m1 e = some m2 ∧ runTrace m2 t2 = some m := by
  rcases runTrace_append h with ⟨m1, h1, h2⟩
  rcases runTrace_cons.mp h2 with ⟨m2, hs, h3⟩
  exact ⟨m1, m2, h1, hs, h3⟩

/-- If a step moves unit `i` into state `p`, the event is `entryEv p i` and
the unit was at `prevPc p`. -/
theorem step_entry {s s' : PoolSt} {e : Ev} {i : Nat} {p : Pc}
    (h : step s e = some s') (h1 : s'.pc i = p) (h2 : s.pc i ≠ p) :
    e = entryEv p i ∧ s.pc i = prevPc p := by
  rcases step_pc_change i h with heq | ⟨he, hold, hnew⟩ | ⟨he, hold, hnew⟩ |
    ⟨he, hold, hnew⟩ | ⟨he, hold, hnew⟩ | ⟨he, hold, hnew⟩ | ⟨he, hold, hnew⟩ |
    ⟨he, ⟨hold, hnew⟩ | ⟨hold, hnew⟩⟩
  · exact absurd (heq.symm.trans h1) h2
  · cases hnew.symm.trans h1; exact ⟨he, hold⟩
  · cases hnew.symm.trans h1; exact ⟨he, hold⟩
  · cases hnew.symm.trans h1; exact ⟨he, hold⟩
  · cases hnew.symm.trans h1; exact ⟨he, hold⟩
  · cases hnew.symm.trans h1; exact ⟨he, hold⟩
  · cases hnew.symm.trans h1; exact ⟨he, hold⟩
  · cases hnew.symm.trans h1; exact ⟨he, hold⟩
  · cases hnew.symm.trans h1; exact ⟨he, hold⟩

/-- A unit observed in a non-initial state entered it through its entry
event: the trace splits at that event. -/
theorem runTrace_entry_split {i : Nat} {p : Pc} :
    ∀ {t : List Ev} {s m : PoolSt}, runTrace s t = some m → m.pc i = p → s.pc i ≠ p →
      ∃ t1 t2 m1 m2, t = t1 ++ entryEv p i :: t2 ∧ runTrace s t1 = some m1 ∧
        m1.pc i = prevPc p ∧ step m1 (entryEv p i) = some m2 ∧ runTrace m2 t2 = some m := by
  intro t
  induction t with
  | nil =>
    intro s m h hm hs
    simp [runTrace] at h
    subst h
    exact absurd hm hs
  | cons e t ih =>
    intro s m h hm hs
    rcases runTrace_cons.mp h with ⟨s1, hstep, hrest⟩
    by_cases h1 : s1.pc i = p
    · obtain ⟨he, hprev⟩ := step_entry hstep h1 hs
      subst he
      exact ⟨[], t, s, s1, rfl, rfl, hprev, hstep, hrest⟩
    · rcases ih hrest hm h1 with ⟨t1, t2, m1, m2, hteq, hrun, hp1, hstep2, hrun2⟩
      subst hteq
      exact ⟨e :: t1, t2, m1, m2, rfl, runTrace_cons.mpr ⟨s1, hstep, hrun⟩, hp1, hstep2,
        hrun2⟩

/-- Counting principle: if event `e0` always flips the predicate `P` on
unit `i`'s program counter from false to true and no other event changes
it, the number of `e0` events in a valid trace is determined by the start
and end states. -/
theorem runTrace_count_flip {i : Nat} (P : Pc → Bool) (e0 : Ev)
    (hflip : ∀ s s' : PoolSt, step s e0 = some s' →
      P (s.pc i) = false ∧ P (s'.pc i) = true)
    (hpres : ∀ (s s' : PoolSt) (e : Ev), e ≠ e0 → step s e = some s' →
      P (s'.pc i) = P (s.pc i)) :
    ∀ {t : List Ev} {s m : PoolSt}, runTrace s t = some m →
      t.count e0 + (if P (s.pc i) then 1 else 0) = (if P (m.pc i) then 1 else 0) := by
  intro t
  induction t with
  | nil =>
    intro s m h
    simp [runTrace] at h
    subst h
    simp
  | cons e t ih =>
    intro s m h
    rcases runTrace_cons.mp h with ⟨s1, hstep, hrest⟩
    have hrec := ih hrest
    rw [List.count_cons]
    by_cases he : e = e0
    · subst he
      obtain ⟨h0, h1⟩ := hflip s s1 hstep
      rw [h0] at *
      rw [h1] at hrec
      simp at hrec ⊢
      omega
    · rw [hpres s s1 e he hstep] at hrec
      simp [he]
      cases hP : P (s.pc i) <;> rw [hP] at hrec <;> simp at hrec ⊢ <;> omega

theorem count_sched (i : Nat) {t : List Ev} {s m : PoolSt} (h : runTrace s t = some m) :
    t.count (Ev.sched i) + (if (s.pc i).schedSide then 1 else 0)
      = (if (m.pc i).schedSide then 1 else 0) := by
  refine runTrace_count_flip Pc.schedSide (Ev.sched i) ?_ ?_ h
  · intro s s' hst
    simp only [step] at hst
    split at hst
    · next hg =>
      cases hst
      rw [hg.2, s.pc_setPc_self _ hg.1]
      exact ⟨rfl, rfl⟩
    · exact absurd hst (by simp)
  · intro s s' e hne hst
    rcases step_pc_change i hst with heq | ⟨he, _, _⟩ | ⟨_, hold, hnew⟩ | ⟨_, hold, hnew⟩ |
      ⟨_, hold, hnew⟩ | ⟨_, hold, hnew⟩ | ⟨_, hold, hnew⟩ |
      ⟨_, ⟨hold, hnew⟩ | ⟨hold, hnew⟩⟩
    · rw [heq]
    · exact absurd he hne
    all_goals (rw [hold, hnew]; decide)

theorem count_acqOk (i : Nat) {t : List Ev} {s m : PoolSt} (h : runTrace s t = some m) :
    t.count (Ev.acqOk i) + (if (s.pc i).okSide then 1 else 0)
      = (if (m.pc i).okSide then 1 else 0) := by
  refine runTrace_count_flip Pc.okSide (Ev.acqOk i) ?_ ?_ h
  · intro s s' hst
    simp only [step] at hst
    split at hst
    · next hg =>
      cases hst
      have hlt : i < s.pcs.length := PoolSt.pc_lt (by rw [hg.1]; simp)
      rw [hg.1, s.pc_setPc_self _ hlt]
      exact ⟨rfl, rfl⟩
    · exact absurd hst (by simp)
  · intro s s' e hne hst
    rcases step_pc_change i hst with heq | ⟨_, hold, hnew⟩ | ⟨he, _, _⟩ | ⟨_, hold, hnew⟩ |
      ⟨_, hold, hnew⟩ | ⟨_, hold, hnew⟩ | ⟨_, hold, hnew⟩ |
      ⟨_, ⟨hold, hnew⟩ | ⟨hold, hnew⟩⟩
    · rw [heq]
    · rw [hold, hnew]; decide
    · exact absurd he hne
    all_goals (rw [hold, hnew]; decide)

theorem count_acqFail (i : Nat) {t : List Ev} {s m : PoolSt} (h : runTrace s t = some m) :
    t.count (Ev.acqFail i) + (if (s.pc i).failSide then 1 else 0)
      = (if (m.pc i).failSide then 1 else 0) := by
  refine runTrace_count_flip Pc.failSide (Ev.acqFail i) ?_ ?_ h
  · intro s s' hst
    simp only [step] at hst
    split at hst
    · next hg =>
      cases hst
      have hlt : i < s.pcs.length := PoolSt.pc_lt (by rw [hg]; simp)
      rw [hg, s.pc_setPc_self _ hlt]
      exact ⟨rfl, rfl⟩
    · exact absurd hst (by simp)
  · intro s s' e hne hst
    rcases step_pc_change i hst with heq | ⟨_, hold, hnew⟩ | ⟨_, hold, hnew⟩ | ⟨he, _, _⟩ |
      ⟨_, hold, hnew⟩ | ⟨_, hold, hnew⟩ | ⟨_, hold, hnew⟩ |
      ⟨_, ⟨hold, hnew⟩ | ⟨hold, hnew⟩⟩
    · rw [heq]
    · rw [hold, hnew]; decide
    · rw [hold, hnew]; decide
    · exact absurd he hne
    all_goals (rw [hold, hnew]; decide)

theorem count_exited (i : Nat) {t : List Ev} {s m : PoolSt} (h : runTrace s t = some m) :
    t.count (Ev.exited i) + (if (s.pc i).exitSide then 1 else 0)
      = (if (m.pc i).exitSide then 1 else 0) := by
  refine runTrace_count_flip Pc.exitSide (Ev.exited i) ?_ ?_ h
  · intro s s' hst
    simp only [step] at hst
    split at hst
    · next hg =>
      cases hst
      have hlt : i < s.pcs.length := PoolSt.pc_lt (by rw [hg]; simp)
      rw [hg, s.pc_setPc_self _ hlt]
      exact ⟨rfl, rfl⟩
    · exact absurd hst (by simp)
  · intro s s' e hne hst
    rcases step_pc_change i hst with heq | ⟨_, hold, hnew⟩ | ⟨_, hold, hnew⟩ |
      ⟨_, hold, hnew⟩ | ⟨he, _, _⟩ | ⟨_, hold, hnew⟩ | ⟨_, hold, hnew⟩ |
      ⟨_, ⟨hold, hnew⟩ | ⟨hold, hnew⟩⟩
    · rw [heq]
    · rw [hold, hnew]; decide
    · rw [hold, hnew]; decide
    · rw [hold, hnew]; decide
    · exact absurd he hne
    all_goals (rw [hold, hnew]; decide)

theorem count_rel (i : Nat) {t : List Ev} {s m : PoolSt} (h : runTrace s t = some m) :
    t.count (Ev.rel i) + (if (s.pc i).relSide then 1 else 0)
      = (if (m.pc i).relSide then 1 else 0) := by
  refine runTrace_count_flip Pc.relSide (Ev.rel i) ?_ ?_ h
  · intro s s' hst
    simp only [step] at hst
    split at hst
    · next hg =>
      cases hst
      have hlt : i < s.pcs.length := PoolSt.pc_lt (by rw [hg]; simp)
      rw [hg, s.pc_setPc_self _ hlt]
      exact ⟨rfl, rfl⟩
    · exact absurd hst (by simp)
  · intro s s' e hne hst
    rcases step_pc_change i hst with heq | ⟨_, hold, hnew⟩ | ⟨_, hold, hnew⟩ |
      ⟨_, hold, hnew⟩ | ⟨_, hold, hnew⟩ | ⟨he, _, _⟩ | ⟨_, hold, hnew⟩ |
      ⟨_, ⟨hold, hnew⟩ | ⟨hold, hnew⟩⟩
    · rw [heq]
    · rw [hold, hnew]; decide
    · rw [hold, hnew]; decide
    · rw [hold, hnew]; decide
    · rw [hold, hnew]; decide
    · exact absurd he hne
    all_goals (rw [hold, hnew]; decide)

theorem count_cb (i : Nat) {t : List Ev} {s m : PoolSt} (h : runTrace s t = some m) :
    t.count (Ev.cb i) + (if (s.pc i).cbSide then 1 else 0)
      = (if (m.pc i).cbSide then 1 else 0) := by
  refine runTrace_count_flip Pc.cbSide (Ev.cb i) ?_ ?_ h
  · intro s s' hst
    simp only [step] at hst
    split at hst
    · next hg =>
      cases hst
      have hlt : i < s.pcs.length := PoolSt.pc_lt (by rw [hg]; simp)
      rw [hg, s.pc_setPc_self _ hlt]
      exact ⟨rfl, rfl⟩
    · exact absurd hst (by simp)
  · intro s s' e hne hst
    rcases step_pc_change i hst with heq | ⟨_, hold, hnew⟩ | ⟨_, hold, hnew⟩ |
      ⟨_, hold, hnew⟩ | ⟨_, hold, hnew⟩ | ⟨_, hold, hnew⟩ | ⟨he, _, _⟩ |
      ⟨_, ⟨hold, hnew⟩ | ⟨hold, hnew⟩⟩
    · rw [heq]
    · rw [hold, hnew]; decide
    · rw [hold, hnew]; decide
    · rw [hold, hnew]; decide
    · rw [hold, hnew]; decide
    · rw [hold, hnew]; decide
    · exact absurd he hne
    all_goals (rw [hold, hnew]; decide)

theorem count_done (i : Nat) {t : List Ev} {s m : PoolSt} (h : runTrace s t = some m) :
    t.count (Ev.done i) + (if (s.pc i).isDone then 1 else 0)
      = (if (m.pc i).isDone then 1 else 0) := by
  refine runTrace_count_flip Pc.isDone (Ev.done i) ?_ ?_ h
  · intro s s' hst
    simp only [step] at hst
    split at hst
    · next hg =>
      cases hst
      have hlt : i < s.pcs.length := PoolSt.pc_lt (by rw [hg]; simp)
      rw [hg, s.pc_setPc_self _ hlt]
      exact ⟨rfl, rfl⟩
    · split at hst
      · next hg =>
        cases hst
        have hlt : i < s.pcs.length := PoolSt.pc_lt (by rw [hg]; simp)
        rw [hg, s.pc_setPc_self _ hlt]
        exact ⟨rfl, rfl⟩
      · exact absurd hst (by simp)
  · intro s s' e hne hst
    rcases step_pc_change i hst with heq | ⟨_, hold, hnew⟩ | ⟨_, hold, hnew⟩ |
      ⟨_, hold, hnew⟩ | ⟨_, hold, hnew⟩ | ⟨_, hold, hnew⟩ | ⟨_, hold, hnew⟩ |
      ⟨he, _⟩
    · rw [heq]
    · rw [hold, hnew]; decide
    · rw [hold, hnew]; decide
    · rw [hold, hnew]; decide
    · rw [hold, hnew]; decide
    · rw [hold, hnew]; decide
    · rw [hold, hnew]; decide
    · exact absurd he hne

/-! ### The `WaitGroup` counter -/

theorem countP_set (q : Pc → Bool) :
    ∀ (l : List Pc) (j : Nat) (p : Pc), j < l.length →
      (l.set j p).countP q + (if q (l.getD j .idle) then 1 else 0)
        = l.countP q + (if q p then 1 else 0) := by
  intro l
  induction l with
  | nil =>
    intro j p h
    simp at h
  | cons a tl ih =>
    intro j p h
    cases j with
    | zero =>
      simp only [List.set_cons_zero, List.countP_cons, List.getD_cons_zero]
      omega
    | succ j =>
      have h2 := ih j p (by simpa using h)
      simp only [List.set_cons_succ, List.countP_cons, List.getD_cons_succ]
      omega

/-- Effect of overwriting one unit's program counter on the counter. -/
theorem wg_set (s : PoolSt) (i : Nat) (pOld pNew : Pc) (hlt : i < s.pcs.length)
    (hpc : s.pc i = pOld) :
    (s.setPc i pNew).wg + (if Pc.inFlight pOld then 1 else 0)
      = s.wg + (if Pc.inFlight pNew then 1 else 0) := by
  have hset := countP_set Pc.inFlight s.pcs i pNew hlt
  have hgd : s.pcs.getD i Pc.idle = pOld := hpc
  rw [hgd] at hset
  exact hset

/-- One step changes the `WaitGroup` counter by +1 on `sched`, by -1 on
`done`, and not at all otherwise. -/
theorem step_wg {s s' : PoolSt} {e : Ev} (h : step s e = some s') :
    s'.wg + (if isDoneEv e then 1 else 0) = s.wg + (if isSchedEv e then 1 else 0) := by
  cases e with
  | sched i =>
    simp only [step] at h
    split at h
    · next hg =>
      cases h
      have hw := wg_set s i Pc.idle Pc.scheduled hg.1 hg.2
      have e1 : (if Pc.inFlight Pc.idle = true then 1 else 0) = 0 := rfl
      have e2 : (if Pc.inFlight Pc.scheduled = true then 1 else 0) = 1 := rfl
      have g1 : (if isDoneEv (Ev.sched i) = true then 1 else 0) = 0 := rfl
      have g2 : (if isSchedEv (Ev.sched i) = true then 1 else 0) = 1 := rfl
      rw [e1, e2] at hw
      rw [g1, g2]
      omega
    · exact absurd h (by simp)
  | acqOk i =>
    simp only [step] at h
    split at h
    · next hg =>
      cases h
      have hlt : i < s.pcs.length := PoolSt.pc_lt (by rw [hg.1]; simp)
      have hw := wg_set s i Pc.scheduled Pc.acquired hlt hg.1
      have e1 : (if Pc.inFlight Pc.scheduled = true then 1 else 0) = 1 := rfl
      have e2 : (if Pc.inFlight Pc.acquired = true then 1 else 0) = 1 := rfl
      have g1 : (if isDoneEv (Ev.acqOk i) = true then 1 else 0) = 0 := rfl
      have g2 : (if isSchedEv (Ev.acqOk i) = true then 1 else 0) = 0 := rfl
      rw [e1, e2] at hw
      rw [g1, g2]
      omega
    · exact absurd h (by simp)
  | acqFail i =>
    simp only [step] at h
    split at h
    · next hg =>
      cases h
      have hlt : i < s.pcs.length := PoolSt.pc_lt (by rw [hg]; simp)
      have hw := wg_set s i Pc.scheduled Pc.acqFailed hlt hg
      have e1 : (if Pc.inFlight Pc.scheduled = true then 1 else 0) = 1 := rfl
      have e2 : (if Pc.inFlight Pc.acqFailed = true then 1 else 0) = 1 := rfl
      have g1 : (if isDoneEv (Ev.acqFail i) = true then 1 else 0) = 0 := rfl
      have g2 : (if isSchedEv (Ev.acqFail i) = true then 1 else 0) = 0 := rfl
      rw [e1, e2] at hw
      rw [g1, g2]
      omega
    · exact absurd h (by simp)
  | exited i =>
    simp only [step] at h
    split at h
    · next hg =>
      cases h
      have hlt : i < s.pcs.length := PoolSt.pc_lt (by rw [hg]; simp)
      have hw := wg_set s i Pc.acquired Pc.ran hlt hg
      have e1 : (if Pc.inFlight Pc.acquired = true then 1 else 0) = 1 := rfl
      have e2 : (if Pc.inFlight Pc.ran = true then 1 else 0) = 1 := rfl
      have g1 : (if isDoneEv (Ev.exited i) = true then 1 else 0) = 0 := rfl
      have g2 : (if isSchedEv (Ev.exited i) = true then 1 else 0) = 0 := rfl
      rw [e1, e2] at hw
      rw [g1, g2]
      omega
    · exact absurd h (by simp)
  | rel i =>
    simp only [step] at h
    split at h
    · next hg =>
      cases h
      have hlt : i < s.pcs.length := PoolSt.pc_lt (by rw [hg]; simp)
      have hw := wg_set s i Pc.ran Pc.released hlt hg
      have e1 : (if Pc.inFlight Pc.ran = true then 1 else 0) = 1 := rfl
      have e2 : (if Pc.inFlight Pc.released = true then 1 else 0) = 1 := rfl
      have g1 : (if isDoneEv (Ev.rel i) = true then 1 else 0) = 0 := rfl
      have g2 : (if isSchedEv (Ev.rel i) = true then 1 else 0) = 0 := rfl
      rw [e1, e2] at hw
      rw [g1, g2]
      omega
    · exact absurd h (by simp)
  | cb i =>
    simp only [step] at h
    split at h
    · next hg =>
      cases h
      have hlt : i < s.pcs.length := PoolSt.pc_lt (by rw [hg]; simp)
      have hw := wg_set s i Pc.released Pc.cbDone hlt hg
      have e1 : (if Pc.inFlight Pc.released = true then 1 else 0) = 1 := rfl
      have e2 : (if Pc.inFlight Pc.cbDone = true then 1 else 0) = 1 := rfl
      have g1 : (if isDoneEv (Ev.cb i) = true then 1 else 0) = 0 := rfl
      have g2 : (if isSchedEv (Ev.cb i) = true then 1 else 0) = 0 := rfl
      rw [e1, e2] at hw
      rw [g1, g2]
      omega
    · exact absurd h (by simp)
  | done i =>
    simp only [step] at h
    split at h
    · next hg =>
      cases h
      have hlt : i < s.pcs.length := PoolSt.pc_lt (by rw [hg]; simp)
      have hw := wg_set s i Pc.cbDone Pc.doneOk hlt hg
      have e1 : (if Pc.inFlight Pc.cbDone = true then 1 else 0) = 1 := rfl
      have e2 : (if Pc.inFlight Pc.doneOk = true then 1 else 0) = 0 := rfl
      have g1 : (if isDoneEv (Ev.done i) = true then 1 else 0) = 1 := rfl
      have g2 : (if isSchedEv (Ev.done i) = true then 1 else 0) = 0 := rfl
      rw [e1, e2] at hw
      rw [g1, g2]
      omega
    · split at h
      · next hg =>
        cases h
        have hlt : i < s.pcs.length := PoolSt.pc_lt (by rw [hg]; simp)
        have hw := wg_set s i Pc.acqFailed Pc.doneFail hlt hg
        have e1 : (if Pc.inFlight Pc.acqFailed = true then 1 else 0) = 1 := rfl
        have e2 : (if Pc.inFlight Pc.doneFail = true then 1 else 0) = 0 := rfl
        have g1 : (if isDoneEv (Ev.done i) = true then 1 else 0) = 1 := rfl
        have g2 : (if isSchedEv (Ev.done i) = true then 1 else 0) = 0 := rfl
        rw [e1, e2] at hw
        rw [g1, g2]
        omega
      · exact absurd h (by simp)
  | poolWaitRet =>
    simp only [step] at h
    split at h
    · cases h
      rfl
    · exact absurd h (by simp)

/-- The barrier invariant: `#sched − #done` along the trace equals the
`WaitGroup` counter change. -/
theorem runTrace_wg :
    ∀ {t : List Ev} {s m : PoolSt}, runTrace s t = some m →
      t.countP isDoneEv + m.wg = t.countP isSchedEv + s.wg := by
  intro t
  induction t with
  | nil =>
    intro s m h
    simp [runTrace] at h
    subst h
    simp
  | cons e t ih =>
    intro s m h
    rcases runTrace_cons.mp h with ⟨s1, hstep, hrest⟩
    have hrec := ih hrest
    have hw := step_wg hstep
    rw [List.countP_cons, List.countP_cons]
    omega

theorem initSt_wg (cap n : Nat) : (initSt cap n).wg = 0 := by
  rw [PoolSt.wg, List.countP_eq_zero]
  intro p hp
  rw [List.eq_of_mem_replicate hp]
  decide

theorem initSt_pc (cap n i : Nat) : (initSt cap n).pc i = Pc.idle := by
  rw [PoolSt.pc]
  rcases Nat.lt_or_ge i n with h | h
  · rw [List.getD_eq_getElem?_getD]
    simp [initSt, List.getElem?_replicate, h]
  · exact List.getD_eq_default _ _ (by simpa [initSt] using h)

/-- When `wg.Wait` can return, the counter is zero. -/
theorem wg_eq_zero_of_all {s : PoolSt} (h : s.pcs.all Pc.idleOrDone) : s.wg = 0 := by
  rw [PoolSt.wg, List.countP_eq_zero]
  intro p hp
  have hm := (List.all_eq_true.mp h) p hp
  cases p <;> simp_all [Pc.idleOrDone, Pc.inFlight, Pc.isDone]

/-! ## String-containment helpers -/

theorem strIncl_rfl (s : String) : strIncl s s :=
  ⟨[], [], by simp⟩

theorem strIncl_left (a : String) {b sub : String} (h : strIncl b sub) :
    strIncl (a ++ b) sub := by
  obtain ⟨s, t, hst⟩ := h
  exact ⟨a.data ++ s, t, by rw [String.data_append, ← hst]; simp⟩

theorem strIncl_right {a : String} (b : String) {sub : String} (h : strIncl a sub) :
    strIncl (a ++ b) sub := by
  obtain ⟨s, t, hst⟩ := h
  exact ⟨s, t ++ b.data, by rw [String.data_append, ← hst]; simp⟩

theorem length_ne_zero_of_ne_empty {s : String} (h : s ≠ "") : ¬ s.length = 0 := by
  intro h0
  apply h
  cases s with
  | mk d => cases d with
    | nil => rfl
    | cons a l => simp [String.length] at h0

/-! ## Claim theorems -/

/-- Claim C1: `cmdExecution.run` classifies the process outcome: a negative
exit code (killed by a signal) yields a "was terminated" error carrying the
captured stderr; a positive exit code with empty captured stdout yields an
error whose message contains the exit code, the phrase "but stdout was
empty" and the stderr text; a positive exit code with non-empty captured
stdout returns the stdout with no error; exit code zero returns the stdout
as-is with no error. -/
theorem c1_run_classification (e : cmdExecution) (os : ProcBehavior)
    (hp : os.stdinPipeErr = none) (hw : os.stdinWriteErr = none)
    (hs : os.spawnErr = none) :
    (os.exitCode < 0 →
      e.run os = (none, some (GoError.terminated e.cmd (cmdStderr e os))) ∧
      strIncl (GoError.terminated e.cmd (cmdStderr e os)).message ("was terminated") ∧
      strIncl (GoError.terminated e.cmd (cmdStderr e os)).message
        (goQuote (cmdStderr e os))) ∧
    (0 < os.exitCode → cmdStdout e os = "" →
      e.run os = (none, some (GoError.emptyStdout e.cmd os.exitCode (cmdStderr e os))) ∧
      strIncl (GoError.emptyStdout e.cmd os.exitCode (cmdStderr e os)).message
        (toString os.exitCode) ∧
      strIncl (GoError.emptyStdout e.cmd os.exitCode (cmdStderr e os)).message
        ("but stdout was empty") ∧
      strIncl (GoError.emptyStdout e.cmd os.exitCode (cmdStderr e os)).message
        (goQuote (cmdStderr e os))) ∧
    (0 < os.exitCode → cmdStdout e os ≠ "" →
      e.run os = (some (cmdStdout e os), none)) ∧
    (os.exitCode = 0 → e.run os = (some (cmdStdout e os), none)) := by
  refine ⟨fun hneg => ⟨?_, ?_, ?_⟩, fun hpos hempty => ⟨?_, ?_, ?_, ?_⟩,
    fun hpos hne => ?_, fun h0 => ?_⟩
  · have hne0 : ¬ os.exitCode = 0 := by omega
    simp [cmdExecution.run, cmdExecution.runWithTrace, hp, hw, hs, hne0, hneg]
  · show strIncl (e.cmd ++ " was terminated. stderr: " ++ goQuote (cmdStderr e os)) _
    exact strIncl_right _ (strIncl_left _ (by decide))
  · show strIncl (e.cmd ++ " was terminated. stderr: " ++ goQuote (cmdStderr e os)) _
    exact strIncl_left _ (strIncl_rfl _)
  · have hne0 : ¬ os.exitCode = 0 := by omega
    have hnlt : ¬ os.exitCode < 0 := by omega
    simp [cmdExecution.run, cmdExecution.runWithTrace, hp, hw, hs, hne0, hnlt, hempty]
  · show strIncl (e.cmd ++ " exited with status " ++ toString os.exitCode
      ++ " but stdout was empty. stderr: " ++ goQuote (cmdStderr e os)) _
    exact strIncl_right _ (strIncl_right _ (strIncl_left _ (strIncl_rfl _)))
  · show strIncl (e.cmd ++ " exited with status " ++ toString os.exitCode
      ++ " but stdout was empty. stderr: " ++ goQuote (cmdStderr e os)) _
    exact strIncl_right _ (strIncl_left _ (by decide))
  · show strIncl (e.cmd ++ " exited with status " ++ toString os.exitCode
      ++ " but stdout was empty. stderr: " ++ goQuote (cmdStderr e os)) _
    exact strIncl_left _ (strIncl_rfl _)
  · have hne0 : ¬ os.exitCode = 0 := by omega
    have hnlt : ¬ os.exitCode < 0 := by omega
    have hlen := length_ne_zero_of_ne_empty hne
    simp [cmdExecution.run, cmdExecution.runWithTrace, hp, hw, hs, hne0, hnlt, hlen]
  · simp [cmdExecution.run, cmdExecution.runWithTrace, hp, hw, hs, h0]

/-- Witness for C1 at a concrete execution: exit status 2 with empty stdout
is classified as an `emptyStdout` error, and exit status 0 returns stdout. -/
theorem c1_run_classification_witness :
    (cmdExecution.mk ("tool") [] "" false).run
        (ProcBehavior.mk none none none 2 ("") "boom" "")
      = (none, some (GoError.emptyStdout ("tool") 2 ("boom"))) ∧
    (cmdExecution.mk ("tool") [] "" false).run
        (ProcBehavior.mk none none none 0 ("hi") "boom" "")
      = (some ("hi"), none) := by
  constructor
  · exact ((c1_run_classification (cmdExecution.mk ("tool") [] "" false)
      (ProcBehavior.mk none none none 2 ("") "boom" "") rfl rfl rfl).2.1
        (by decide) (by decide)).1
  · exact (c1_run_classification (cmdExecution.mk ("tool") [] "" false)
      (ProcBehavior.mk none none none 0 ("hi") "boom" "") rfl rfl rfl).2.2.2 rfl

theorem strPref_extend {a : String} (b : String) {p : String} (h : strPref a p) :
    strPref (a ++ b) p := by
  obtain ⟨t, ht⟩ := h
  exact ⟨t ++ b.data, by rw [String.data_append, ← ht]; simp⟩

/-- Claim C9: when making the stdin pipe or writing the stdin payload fails,
`cmdExecution.run` returns no output and an error wrapping the underlying
failure, prefixed "could not make stdin pipe" or "could not write to
stdin"; on those paths the process is never started, and whenever the
process is started the whole payload has been written and the pipe closed
beforehand (in the effect order). -/
theorem c9_stdin_failure (e : cmdExecution) (os : ProcBehavior) :
    (∀ m, os.stdinPipeErr = some m →
      e.runWithTrace os
        = ((none, some (GoError.stdinPipe e.cmd m)), [Effect.makePipe]) ∧
      strPref (GoError.stdinPipe e.cmd m).message ("could not make stdin pipe") ∧
      strIncl (GoError.stdinPipe e.cmd m).message m ∧
      Effect.startProcess ∉ (e.runWithTrace os).2) ∧
    (∀ m, os.stdinPipeErr = none → os.stdinWriteErr = some m →
      e.runWithTrace os
        = ((none, some (GoError.stdinWrite e.cmd m)),
            [Effect.makePipe, Effect.writeStdin e.stdin, Effect.closePipe]) ∧
      strPref (GoError.stdinWrite e.cmd m).message ("could not write to stdin") ∧
      strIncl (GoError.stdinWrite e.cmd m).message m ∧
      Effect.startProcess ∉ (e.runWithTrace os).2) ∧
    (Effect.startProcess ∈ (e.runWithTrace os).2 →
      (e.runWithTrace os).2
        = [Effect.makePipe, Effect.writeStdin e.stdin, Effect.closePipe,
            Effect.startProcess]) := by
  refine ⟨fun m hm => ⟨?_, ?_, ?_, ?_⟩, fun m hp hm => ⟨?_, ?_, ?_, ?_⟩, fun hmem => ?_⟩
  · simp [cmdExecution.runWithTrace, hm]
  · show strPref ("could not make stdin pipe for " ++ e.cmd ++ " process: " ++ m) _
    exact strPref_extend _ (strPref_extend _ (strPref_extend _ (by decide)))
  · show strIncl ("could not make stdin pipe for " ++ e.cmd ++ " process: " ++ m) _
    exact strIncl_left _ (strIncl_rfl _)
  · simp [cmdExecution.runWithTrace, hm]
  · simp [cmdExecution.runWithTrace, hp, hm]
  · show strPref ("could not write to stdin of " ++ e.cmd ++ " process: " ++ m) _
    exact strPref_extend _ (strPref_extend _ (strPref_extend _ (by decide)))
  · show strIncl ("could not write to stdin of " ++ e.cmd ++ " process: " ++ m) _
    exact strIncl_left _ (strIncl_rfl _)
  · simp [cmdExecution.runWithTrace, hp, hm]
  · rcases hp : os.stdinPipeErr with _ | m
    · rcases hw : os.stdinWriteErr with _ | m
      · simp [cmdExecution.runWithTrace, hp, hw]
      · simp [cmdExecution.runWithTrace, hp, hw] at hmem
    · simp [cmdExecution.runWithTrace, hp] at hmem

/-- Witness for C9: a concrete failing stdin write yields the wrapped
error, no output, and no process start. -/
theorem c9_stdin_failure_witness :
    (cmdExecution.mk ("tool") [] "payload" false).runWithTrace
        (ProcBehavior.mk none (some ("broken pipe")) none 0 ("") "" "")
      = ((none, some (GoError.stdinWrite ("tool") "broken pipe")),
          [Effect.makePipe, Effect.writeStdin ("payload"), Effect.closePipe]) := by
  exact ((c9_stdin_failure (cmdExecution.mk ("tool") [] "payload" false)
    (ProcBehavior.mk none (some ("broken pipe")) none 0 ("") "" "")).2.1
      ("broken pipe") rfl rfl).1

/-- Claim C7: when the combine flag is set, the stream returned (and handed
to the callback) is the combined stream with stderr interleaved into it
(under the OS guarantee that the combined stream contains the stderr bytes
as a subsequence, so does the returned output); when the flag is unset the
returned output is the pure stdout stream, unchanged under any change of
the stderr bytes, and the stderr bytes appear only inside failure errors. -/
theorem c7_combine_flag (e : cmdExecution) (os : ProcBehavior)
    (hp : os.stdinPipeErr = none) (hw : os.stdinWriteErr = none)
    (hs : os.spawnErr = none) :
    (e.combineOutput = true →
      (∀ o, (e.run os).1 = some o → o = os.combinedB) ∧
      (List.Sublist os.errB.data os.combinedB.data →
        ∀ o, (e.run os).1 = some o → List.Sublist os.errB.data o.data)) ∧
    (e.combineOutput = false →
      (∀ o, (e.run os).1 = some o → o = os.outB) ∧
      (∀ x, (e.run (ProcBehavior.mk os.stdinPipeErr os.stdinWriteErr os.spawnErr
          os.exitCode os.outB x os.combinedB)).1 = (e.run os).1) ∧
      (∀ err, (e.run os).2 = some err →
        err = GoError.terminated e.cmd os.errB ∨
        err = GoError.emptyStdout e.cmd os.exitCode os.errB)) := by
  have hfst : (e.run os).1 = none ∨ (e.run os).1 = some (cmdStdout e os) := by
    simp only [cmdExecution.run, cmdExecution.runWithTrace, hp, hw, hs]
    by_cases h0 : os.exitCode = 0
    · simp [h0]
    · by_cases hlt : os.exitCode < 0
      · simp [h0, hlt]
      · by_cases hlen : (cmdStdout e os).length = 0
        · simp [h0, hlt, hlen]
        · simp [h0, hlt, hlen]
  refine ⟨fun hc => ⟨fun o ho => ?_, fun hsub o ho => ?_⟩,
    fun hc => ⟨fun o ho => ?_, fun x => ?_, fun err herr => ?_⟩⟩
  · rcases hfst with h | h
    · rw [h] at ho; cases ho
    · rw [h] at ho
      cases ho
      simp [cmdStdout, hc]
  · rcases hfst with h | h
    · rw [h] at ho; cases ho
    · rw [h] at ho
      cases ho
      simpa [cmdStdout, hc] using hsub
  · rcases hfst with h | h
    · rw [h] at ho; cases ho
    · rw [h] at ho
      cases ho
      simp [cmdStdout, hc]
  · simp only [cmdExecution.run, cmdExecution.runWithTrace, hp, hw, hs]
    by_cases h0 : os.exitCode = 0
    · simp [h0, cmdStdout, hc]
    · by_cases hlt : os.exitCode < 0
      · simp [h0, hlt]
      · by_cases hlen : (cmdStdout e os).length = 0
        · simp [h0, hlt, cmdStdout, hc] at hlen ⊢
          simp [hlen]
        · simp [h0, hlt, cmdStdout, hc] at hlen ⊢
          simp [hlen]
  · simp only [cmdExecution.run, cmdExecution.runWithTrace, hp, hw, hs] at herr
    by_cases h0 : os.exitCode = 0
    · simp [h0] at herr
    · by_cases hlt : os.exitCode < 0
      · simp [h0, hlt] at herr
        cases herr
        exact Or.inl (by simp [cmdStderr, hc])
      · by_cases hlen : (cmdStdout e os).length = 0
        · simp [h0, hlt, hlen] at herr
          cases herr
          exact Or.inr (by simp [cmdStderr, hc])
        · simp [h0, hlt, hlen] at herr

/-- Witness for C7: with the combine flag, a concrete run returns the
combined stream; without it, changing the stderr bytes does not change the
returned output. -/
theorem c7_combine_flag_witness :
    ((cmdExecution.mk ("t") [] "" true).run
        (ProcBehavior.mk none none none 0 ("o") "e" "oe")).1 = some ("oe") ∧
    ((cmdExecution.mk ("t") [] "" false).run
        (ProcBehavior.mk none none none 0 ("o") "x" "oe")).1
      = ((cmdExecution.mk ("t") [] "" false).run
        (ProcBehavior.mk none none none 0 ("o") "e" "oe")).1 := by
  constructor
  · have h := (c7_combine_flag (cmdExecution.mk ("t") [] "" true)
      (ProcBehavior.mk none none none 0 ("o") "e" "oe") rfl rfl rfl).1 rfl
    have ho : ((cmdExecution.mk ("t") [] "" true).run
        (ProcBehavior.mk none none none 0 ("o") "e" "oe")).1 = some ("oe") := by decide
    exact ho
  · exact ((c7_combine_flag (cmdExecution.mk ("t") [] "" false)
      (ProcBehavior.mk none none none 0 ("o") "e" "oe") rfl rfl rfl).2 rfl).2.1 ("x")

/-- Claim C4: `externalCommand.run` submits an execution unit whose argument
vector is the baked-in arguments followed by the extra arguments, whose
executable, stdin and combine flag come from the handle and the caller. -/
theorem c4_run_argument_vector (cmd : externalCommand) (extra : List String)
    (stdin : String) :
    cmd.execution extra stdin
      = cmdExecution.mk cmd.exe (cmd.args ++ extra) stdin cmd.combineOutput := by
  unfold externalCommand.execution
  cases harg : cmd.args with
  | nil => simp
  | cons a l => simp [harg]

/-- Claim C2: executable resolution at handle construction: an empty string,
a command line with an unterminated quote (tokenizer failure), and a name
absent from the search path each make `newCommandRunner` fail with no
handle; a name present on the search path succeeds with no baked-in
arguments; a multi-token command line whose first token is present
succeeds, the remaining tokens becoming the handle's baked-in leading
arguments. -/
theorem c2_resolution_cases (env : LookupEnv) :
    (∀ e0, env.lookPath ("") = Except.error e0 → env.shellwordsParse ("") = Except.ok [] →
      ∀ b, newCommandRunner env ("") b = Except.error e0) ∧
    (∀ s e0 m, env.lookPath s = Except.error e0 →
      env.shellwordsParse s = Except.error m →
      ∀ b, newCommandRunner env s b = Except.error e0) ∧
    (∀ s e0, env.lookPath s = Except.error e0 → env.shellwordsParse s = Except.ok [s] →
      ∀ b, newCommandRunner env s b = Except.error e0) ∧
    (∀ s p b, env.lookPath s = Except.ok p →
      newCommandRunner env s b = Except.ok (externalCommand.mk p [] b)) ∧
    (∀ s w rest p e0 b, env.lookPath s = Except.error e0 →
      env.shellwordsParse s = Except.ok (w :: rest) → env.lookPath w = Except.ok p →
      newCommandRunner env s b = Except.ok (externalCommand.mk p rest b)) := by
  refine ⟨?_, ?_, ?_, ?_, ?_⟩
  · intro e0 hl hp b
    simp [newCommandRunner, resolveExternalCommand, hl, hp]
  · intro s e0 m hl hp b
    simp [newCommandRunner, resolveExternalCommand, hl, hp]
  · intro s e0 hl hp b
    simp [newCommandRunner, resolveExternalCommand, hl, hp]
  · intro s p b hl
    simp [newCommandRunner, resolveExternalCommand, hl]
  · intro s w rest p e0 b hl hp hw
    simp [newCommandRunner, resolveExternalCommand, hl, hp, hw]

/-- Witness for C2 on `c2Env`: the three negative cases fail, the two
positive cases succeed with the expected baked-in arguments. -/
theorem c2_resolution_cases_witness :
    newCommandRunner c2Env ("") false = Except.error ("file not found") ∧
    newCommandRunner c2Env ("broken quote arg") false = Except.error ("file not found") ∧
    newCommandRunner c2Env ("this-command-does-not-exist") false
      = Except.error ("file not found") ∧
    newCommandRunner c2Env ("echo") false
      = Except.ok (externalCommand.mk ("/bin/echo") [] false) ∧
    newCommandRunner c2Env ("echo hello") false
      = Except.ok (externalCommand.mk ("/bin/echo") ["hello"] false) := by
  have h := c2_resolution_cases c2Env
  refine ⟨h.1 ("file not found") (by rfl) (by rfl) false,
    h.2.1 ("broken quote arg") "file not found" "invalid command line string"
      (by rfl) (by rfl) false,
    h.2.2.1 ("this-command-does-not-exist") "file not found" (by rfl) (by rfl) false,
    h.2.2.2.1 ("echo") "/bin/echo" false (by rfl),
    h.2.2.2.2 ("echo hello") "echo" ["hello"] "/bin/echo" "file not found" false
      (by rfl) (by rfl) (by rfl)⟩

/-- Claim C8 counterexample: `newCommandRunner` has no flag that tolerates
parse failures: for a string that neither resolves nor tokenizes, both
values of the only boolean argument report the failure, and that boolean
is recorded as the handle's stderr-merge (`combineOutput`) flag. -/
theorem c8_no_parse_tolerance_flag :
    newCommandRunner c8Env ("broken quote arg") true = Except.error ("file not found") ∧
    newCommandRunner c8Env ("broken quote arg") false = Except.error ("file not found") ∧
    newCommandRunner c8Env ("good") true
      = Except.ok (externalCommand.mk ("/bin/good") [] true) ∧
    newCommandRunner c8Env ("good") false
      = Except.ok (externalCommand.mk ("/bin/good") [] false) := by
  exact ⟨rfl, rfl, rfl, rfl⟩

/-- Claim C8 (amended): command-handle construction accepts, besides the
pool and the executable string, exactly one boolean, which becomes the
handle's stderr-merge (`combineOutput`) flag; resolution failures
(including command-line parse failures) are reported identically for both
values of that boolean — there is no flag choosing whether parse failures
are tolerated. -/
theorem c8_construction_boolean (env : LookupEnv) (exe : String) :
    (∀ e0, resolveExternalCommand env exe = Except.error e0 →
      ∀ b, newCommandRunner env exe b = Except.error e0) ∧
    (∀ p a, resolveExternalCommand env exe = Except.ok (p, a) →
      ∀ b, newCommandRunner env exe b = Except.ok (externalCommand.mk p a b)) := by
  constructor
  · intro e0 hres b
    simp [newCommandRunner, hres]
  · intro p a hres b
    simp [newCommandRunner, hres]

/-- Witness for the amended C8 on `c8Env`. -/
theorem c8_construction_boolean_witness :
    newCommandRunner c8Env ("nope") true = Except.error ("file not found") ∧
    newCommandRunner c8Env ("good") true
      = Except.ok (externalCommand.mk ("/bin/good") [] true) := by
  have h := c8_construction_boolean c8Env ("nope")
  have h2 := c8_construction_boolean c8Env ("good")
  exact ⟨h.1 ("file not found") (by rfl) true,
    h2.2 ("/bin/good") [] (by rfl) true⟩

theorem waitResult_cons (h : Nat) (r : Nat × Option GoError)
    (t : List (Nat × Option GoError)) :
    externalCommand.waitResult h (r :: t)
      = if r.1 == h then
          (match r.2 with
           | some e => some e
           | none => externalCommand.waitResult h t)
        else externalCommand.waitResult h t := by
  by_cases hr : r.1 == h
  · cases h2 : r.2 <;>
      simp [externalCommand.waitResult, errgroupWait, List.filter_cons, hr, h2]
  · simp [externalCommand.waitResult, errgroupWait, List.filter_cons, hr]

/-- Claim C3: a handle's `wait()` returns the first error recorded among the
invocations issued through that handle — whether from semaphore
acquisition, from spawn/classification (which flow into the record through
the callback), or from the callback's own return value, which fails the
wait even when the process exited zero — returns none when all of the
handle's invocations succeeded, and entries recorded by other handles on
the same pool never affect it. -/
theorem c3_wait_first_error (h : Nat) :
    (∀ log : List (Nat × Option GoError),
      (∀ r ∈ log, r.1 = h → r.2 = none) → externalCommand.waitResult h log = none) ∧
    (∀ (l1 l2 : List (Nat × Option GoError)) (e : GoError),
      (∀ r ∈ l1, r.1 = h → r.2 = none) →
      externalCommand.waitResult h (l1 ++ (h, some e) :: l2) = some e) ∧
    (∀ (l1 l2 : List (Nat × Option GoError)) (h2 : Nat) (r : Option GoError),
      h2 ≠ h →
      externalCommand.waitResult h (l1 ++ (h2, r) :: l2)
        = externalCommand.waitResult h (l1 ++ l2)) ∧
    (∀ (exe : cmdExecution) (os : ProcBehavior)
        (cb : Option String → Option GoError → Option GoError) (e : GoError)
        (o : String),
      exe.run os = (some o, none) → cb (some o) none = some e →
      concurrentProcess.runWorker exe (Except.ok ()) os cb = some e ∧
      externalCommand.waitResult h
          [(h, concurrentProcess.runWorker exe (Except.ok ()) os cb)] = some e) ∧
    (∀ (exe : cmdExecution) (os : ProcBehavior)
        (cb : Option String → Option GoError → Option GoError),
      concurrentProcess.runWorker exe (Except.ok ()) os cb
        = cb (exe.run os).1 (exe.run os).2) := by
  refine ⟨?_, ?_, ?_, ?_, ?_⟩
  · intro log hall
    induction log with
    | nil => rfl
    | cons r t ih =>
      rw [waitResult_cons]
      by_cases hr : r.1 == h
      · have h2 : r.2 = none := hall r (List.mem_cons_self r t) (by simpa using hr)
        rw [if_pos hr, h2]
        exact ih fun x hx => hall x (List.mem_cons_of_mem r hx)
      · rw [if_neg hr]
        exact ih fun x hx => hall x (List.mem_cons_of_mem r hx)
  · intro l1 l2 e hall
    induction l1 with
    | nil =>
      rw [List.nil_append, waitResult_cons]
      simp
    | cons r t ih =>
      rw [List.cons_append, waitResult_cons]
      by_cases hr : r.1 == h
      · have h2 : r.2 = none := hall r (List.mem_cons_self r t) (by simpa using hr)
        rw [if_pos hr, h2]
        exact ih fun x hx => hall x (List.mem_cons_of_mem r hx)
      · rw [if_neg hr]
        exact ih fun x hx => hall x (List.mem_cons_of_mem r hx)
  · intro l1 l2 h2 r hne
    induction l1 with
    | nil =>
      rw [List.nil_append, List.nil_append, waitResult_cons]
      have : ¬ ((h2, r).1 == h) := by simpa using hne
      rw [if_neg this]
    | cons a t ih =>
      rw [List.cons_append, List.cons_append, waitResult_cons, waitResult_cons, ih]
  · intro exe os cb e o hrun hcb
    have hworker : concurrentProcess.runWorker exe (Except.ok ()) os cb = some e := by
      simp [concurrentProcess.runWorker, hrun, hcb]
    refine ⟨hworker, ?_⟩
    rw [hworker, waitResult_cons]
    simp
  · intro exe os cb
    rfl

/-- Witness for C3: a callback-made error on a zero-exit run is the first
recorded error of its handle and is returned by the handle's wait, while
another handle's entries are ignored. -/
theorem c3_wait_first_error_witness :
    externalCommand.waitResult 0
        [(1, some (GoError.custom ("other"))), (0, none),
         (0, some (GoError.custom ("dummy error")))]
      = some (GoError.custom ("dummy error")) ∧
    concurrentProcess.runWorker (cmdExecution.mk ("echo") [] "" false)
        (Except.ok ()) (ProcBehavior.mk none none none 0 ("hi") "" "")
        (fun _ _ => some (GoError.custom ("dummy error")))
      = some (GoError.custom ("dummy error")) := by
  have h := c3_wait_first_error 0
  refine ⟨?_, ?_⟩
  · exact h.2.1 [(1, some (GoError.custom ("other"))), (0, none)] []
      (GoError.custom ("dummy error")) (by decide)
  · exact (h.2.2.2.1 (cmdExecution.mk ("echo") [] "" false)
      (ProcBehavior.mk none none none 0 ("hi") "" "")
      (fun _ _ => some (GoError.custom ("dummy error")))
      (GoError.custom ("dummy error")) "hi" rfl rfl).1

theorem side_true_of_mem {t : List Ev} {e0 : Ev} {b : Bool}
    (hcnt : t.count e0 = if b then 1 else 0) (hmem : e0 ∈ t) : b = true := by
  have hpos : 0 < t.count e0 := List.count_pos_iff.mpr hmem
  cases b
  · simp at hcnt
    omega
  · rfl

theorem mem_of_side_true {t : List Ev} {e0 : Ev} {b : Bool}
    (hcnt : t.count e0 = if b then 1 else 0) (hb : b = true) : e0 ∈ t := by
  rw [hb] at hcnt
  simp at hcnt
  exact List.count_pos_iff.mp (by omega)

/-- Claim C10: when semaphore acquisition fails for a unit, the caller's
callback is never invoked (the worker result is independent of the
callback, and in the trace model a unit that observed `acqFail` never has
a `cb`, `rel` or `acqOk` event); instead a "could not acquire semaphore"
error naming the executable is recorded and surfaces through the handle's
wait, the semaphore is not released for that unit, and the worker's
`done` (the deferred `wg.Done`) stays enabled, so the pool barrier is
still decremented and `pool.wait` cannot deadlock. -/
theorem c10_semaphore_failure :
    (∀ (exe : cmdExecution) (os : ProcBehavior)
        (cb : Option String → Option GoError → Option GoError) (m : String),
      concurrentProcess.runWorker exe (Except.error m) os cb
          = some (GoError.semaAcquire exe.cmd m) ∧
      (∀ cb2, concurrentProcess.runWorker exe (Except.error m) os cb
          = concurrentProcess.runWorker exe (Except.error m) os cb2) ∧
      strIncl (GoError.semaAcquire exe.cmd m).message ("could not acquire semaphore") ∧
      strIncl (GoError.semaAcquire exe.cmd m).message (goQuote exe.cmd) ∧
      (∀ hid, externalCommand.waitResult hid
            [(hid, concurrentProcess.runWorker exe (Except.error m) os cb)]
          = some (GoError.semaAcquire exe.cmd m))) ∧
    (∀ (cap n : Nat) (t : List Ev) (m : PoolSt) (i : Nat),
      runTrace (initSt cap n) t = some m → Ev.acqFail i ∈ t →
      Ev.cb i ∉ t ∧ Ev.rel i ∉ t ∧ Ev.acqOk i ∉ t ∧
      (m.pc i = Pc.acqFailed →
        step m (Ev.done i) = some (m.setPc i Pc.doneFail))) := by
  constructor
  · intro exe os cb m
    refine ⟨rfl, fun cb2 => rfl, ?_, ?_, ?_⟩
    · show strIncl ("could not acquire semaphore to run " ++ goQuote exe.cmd
        ++ ": " ++ m) "could not acquire semaphore"
      exact strIncl_right _ (strIncl_right _ (strIncl_right _ (by decide)))
    · show strIncl ("could not acquire semaphore to run " ++ goQuote exe.cmd
        ++ ": " ++ m) _
      exact strIncl_right _ (strIncl_right _ (strIncl_left _ (strIncl_rfl _)))
    · intro hid
      rw [waitResult_cons]
      simp [concurrentProcess.runWorker]
  · intro cap n t m i hrun hmem
    have hcf := count_acqFail i hrun
    rw [initSt_pc] at hcf
    rw [show Pc.idle.failSide = false from rfl] at hcf
    simp at hcf
    have hfail : (m.pc i).failSide = true := side_true_of_mem hcf hmem
    refine ⟨?_, ?_, ?_, ?_⟩
    · intro hcb
      have hcc := count_cb i hrun
      rw [initSt_pc] at hcc
      rw [show Pc.idle.cbSide = false from rfl] at hcc
      simp at hcc
      have hc2 : (m.pc i).cbSide = true := side_true_of_mem hcc hcb
      cases hpc : m.pc i <;> rw [hpc] at hfail hc2 <;>
        first
          | exact absurd hfail (by decide)
          | exact absurd hc2 (by decide)
    · intro hrel
      have hcc := count_rel i hrun
      rw [initSt_pc] at hcc
      rw [show Pc.idle.relSide = false from rfl] at hcc
      simp at hcc
      have hc2 : (m.pc i).relSide = true := side_true_of_mem hcc hrel
      cases hpc : m.pc i <;> rw [hpc] at hfail hc2 <;>
        first
          | exact absurd hfail (by decide)
          | exact absurd hc2 (by decide)
    · intro hok
      have hcc := count_acqOk i hrun
      rw [initSt_pc] at hcc
      rw [show Pc.idle.okSide = false from rfl] at hcc
      simp at hcc
      have hc2 : (m.pc i).okSide = true := side_true_of_mem hcc hok
      cases hpc : m.pc i <;> rw [hpc] at hfail hc2 <;>
        first
          | exact absurd hfail (by decide)
          | exact absurd hc2 (by decide)
    · intro hpc
      simp [step, hpc]

/-- Witness for C10: a concrete acquisition failure records the semaphore
error, and a concrete failed-acquisition trace has no callback event but
can still finish with `done`. -/
theorem c10_semaphore_failure_witness :
    concurrentProcess.runWorker (cmdExecution.mk ("shellcheck") [] "" false)
        (Except.error ("context canceled"))
        (ProcBehavior.mk none none none 0 ("") "" "")
        (fun _ _ => none)
      = some (GoError.semaAcquire ("shellcheck") "context canceled") ∧
    Ev.cb 0 ∉ [Ev.sched 0, Ev.acqFail 0, Ev.done 0] := by
  constructor
  · exact (c10_semaphore_failure.1 (cmdExecution.mk ("shellcheck") [] "" false)
      (ProcBehavior.mk none none none 0 ("") "" "") (fun _ _ => none)
      "context canceled").1
  · exact (c10_semaphore_failure.2 1 1 [Ev.sched 0, Ev.acqFail 0, Ev.done 0]
      (PoolSt.mk 1 [Pc.doneFail]) 0 (by decide) (by decide)).1

/-- Claim C5: in every valid pool trace a unit's semaphore slot is released
strictly after its subprocess run finished and strictly before its
callback: every `cb i` event is preceded by a `rel i` event which is
itself preceded by an `exited i` event, and every `rel i` event is
preceded by an `exited i` event (so a callback also fires strictly after
the unit's subprocess has exited or failed to spawn). -/
theorem c5_release_before_callback (cap n : Nat) (t : List Ev) (m : PoolSt) (i : Nat)
    (hrun : runTrace (initSt cap n) t = some m) :
    (∀ t1 t2, t = t1 ++ Ev.cb i :: t2 →
      ∃ u1 u2, t1 = u1 ++ Ev.rel i :: u2 ∧ Ev.exited i ∈ u1) ∧
    (∀ t1 t2, t = t1 ++ Ev.rel i :: t2 → Ev.exited i ∈ t1) := by
  have hinit : ∀ p : Pc, p ≠ Pc.idle → (initSt cap n).pc i ≠ p := by
    intro p hp
    rw [initSt_pc]
    exact fun hh => hp hh.symm
  constructor
  · intro t1 t2 ht
    subst ht
    rcases runTrace_split hrun with ⟨m1, m2, hrun1, hstep, _⟩
    have hg : m1.pc i = Pc.released := by
      by_cases hg : m1.pc i = Pc.released
      · exact hg
      · simp [step, hg] at hstep
    rcases runTrace_entry_split hrun1 hg (hinit _ (by decide)) with
      ⟨u1, u2, m3, m4, hteq, hrun2, hp3, _, _⟩
    have hp3' : m3.pc i = Pc.ran := hp3
    refine ⟨u1, u2, hteq, ?_⟩
    rcases runTrace_entry_split hrun2 hp3' (hinit _ (by decide)) with
      ⟨v1, v2, m5, m6, hveq, _, _, _, _⟩
    rw [hveq]
    exact List.mem_append.mpr (Or.inr (List.mem_cons_self _ _))
  · intro t1 t2 ht
    subst ht
    rcases runTrace_split hrun with ⟨m1, m2, hrun1, hstep, _⟩
    have hg : m1.pc i = Pc.ran := by
      by_cases hg : m1.pc i = Pc.ran
      · exact hg
      · simp [step, hg] at hstep
    rcases runTrace_entry_split hrun1 hg (hinit _ (by decide)) with
      ⟨v1, v2, m5, m6, hveq, _, _, _, _⟩
    rw [hveq]
    exact List.mem_append.mpr (Or.inr (List.mem_cons_self _ _))

/-- Witness for C5 on a concrete one-unit trace. -/
theorem c5_release_before_callback_witness :
    Ev.exited 0 ∈ [Ev.sched 0, Ev.acqOk 0, Ev.exited 0] := by
  exact (c5_release_before_callback 1 1
    [Ev.sched 0, Ev.acqOk 0, Ev.exited 0, Ev.rel 0, Ev.cb 0, Ev.done 0]
    (PoolSt.mk 1 [Pc.doneOk]) 0 (by decide)).2
    [Ev.sched 0, Ev.acqOk 0, Ev.exited 0] [Ev.cb 0, Ev.done 0] rfl

/-- Claim C6: the pool barrier (`WaitGroup`): each unit's `sched` (the
`wg.Add(1)`) and `done` (the deferred `wg.Done()`) occur exactly once for
a scheduled/finished unit on every path; along every prefix of a valid
trace the decrements never exceed the increments (the counter never goes
negative); a `wg.Wait` return is possible only at a point where the
counter is zero, and then every unit scheduled so far has finished — its
callback having completed unless its acquisition failed; and the barrier
is reusable: a valid trace can schedule and complete new work after a
wait has returned. -/
theorem c6_barrier (cap n : Nat) (t : List Ev) (m : PoolSt)
    (hrun : runTrace (initSt cap n) t = some m) :
    (∀ i, t.count (Ev.sched i) = (if (m.pc i).schedSide then 1 else 0) ∧
      t.count (Ev.done i) = (if (m.pc i).isDone then 1 else 0)) ∧
    (∀ t1 t2, t = t1 ++ t2 → t1.countP isDoneEv ≤ t1.countP isSchedEv) ∧
    (∀ t1 t2, t = t1 ++ Ev.poolWaitRet :: t2 →
      t1.countP isDoneEv = t1.countP isSchedEv ∧
      ∀ i, Ev.sched i ∈ t1 →
        Ev.done i ∈ t1 ∧ (Ev.acqFail i ∉ t1 → Ev.cb i ∈ t1)) ∧
    runTrace (initSt 1 2)
        [Ev.sched 0, Ev.acqOk 0, Ev.exited 0, Ev.rel 0, Ev.cb 0, Ev.done 0,
         Ev.poolWaitRet, Ev.sched 1, Ev.acqOk 1, Ev.exited 1, Ev.rel 1, Ev.cb 1,
         Ev.done 1, Ev.poolWaitRet]
      = some (PoolSt.mk 1 [Pc.doneOk, Pc.doneOk]) := by
  refine ⟨?_, ?_, ?_, by decide⟩
  · intro i
    constructor
    · have hc := count_sched i hrun
      rw [initSt_pc] at hc
      rw [show Pc.idle.schedSide = false from rfl] at hc
      simp at hc
      omega
    · have hc := count_done i hrun
      rw [initSt_pc] at hc
      rw [show Pc.idle.isDone = false from rfl] at hc
      simp at hc
      omega
  · intro t1 t2 ht
    subst ht
    rcases runTrace_append hrun with ⟨m1, h1, _⟩
    have hw := runTrace_wg h1
    rw [initSt_wg] at hw
    omega
  · intro t1 t2 ht
    subst ht
    rcases runTrace_split hrun with ⟨m1, m2, h1, hstep, _⟩
    have hall : m1.pcs.all Pc.idleOrDone = true := by
      by_cases hga : m1.pcs.all Pc.idleOrDone = true
      · exact hga
      · simp [step, hga] at hstep
    have hz := wg_eq_zero_of_all hall
    have hw := runTrace_wg h1
    rw [initSt_wg, hz] at hw
    refine ⟨by omega, ?_⟩
    intro i hsched
    have hcs := count_sched i h1
    rw [initSt_pc] at hcs
    rw [show Pc.idle.schedSide = false from rfl] at hcs
    simp at hcs
    have hside : (m1.pc i).schedSide = true := side_true_of_mem hcs hsched
    have hne : m1.pc i ≠ Pc.idle := by
      intro hid
      rw [hid] at hside
      exact absurd hside (by decide)
    have hlt := PoolSt.pc_lt hne
    have hmem : m1.pc i ∈ m1.pcs := by
      rw [PoolSt.pc, List.getD_eq_getElem?_getD, List.getElem?_eq_getElem hlt]
      exact List.getElem_mem hlt
    have hiod : (m1.pc i).idleOrDone = true := (List.all_eq_true.mp hall) _ hmem
    have hdone : (m1.pc i).isDone = true := by
      cases hpc : m1.pc i <;> rw [hpc] at hiod hne <;>
        first
          | rfl
          | exact absurd hiod (by decide)
          | exact absurd rfl hne
    constructor
    · have hcd := count_done i h1
      rw [initSt_pc] at hcd
      rw [show Pc.idle.isDone = false from rfl] at hcd
      simp at hcd
      exact mem_of_side_true hcd hdone
    · intro hnof
      have hdf : m1.pc i = Pc.doneOk ∨ m1.pc i = Pc.doneFail := by
        cases hpc : m1.pc i <;> rw [hpc] at hdone <;>
          first
            | exact Or.inl rfl
            | exact Or.inr rfl
            | exact absurd hdone (by decide)
      rcases hdf with hok | hfail
      · have hcc := count_cb i h1
        rw [initSt_pc] at hcc
        rw [show Pc.idle.cbSide = false from rfl] at hcc
        simp at hcc
        exact mem_of_side_true hcc (by rw [hok]; rfl)
      · have hcf := count_acqFail i h1
        rw [initSt_pc] at hcf
        rw [show Pc.idle.failSide = false from rfl] at hcf
        simp at hcf
        exact absurd (mem_of_side_true hcf (by rw [hfail]; rfl)) hnof

/-- Witness for C6 on a concrete failed-acquisition trace: the unit's
`sched` and `done` each occur exactly once. -/
theorem c6_barrier_witness :
    [Ev.sched 0, Ev.acqFail 0, Ev.done 0, Ev.poolWaitRet].count (Ev.sched 0) = 1 ∧
    [Ev.sched 0, Ev.acqFail 0, Ev.done 0, Ev.poolWaitRet].count (Ev.done 0) = 1 := by
  have h := (c6_barrier 1 1 [Ev.sched 0, Ev.acqFail 0, Ev.done 0, Ev.poolWaitRet]
    (PoolSt.mk 1 [Pc.doneFail]) (by decide)).1 0
  exact ⟨h.1.trans (by decide), h.2.trans (by decide)⟩

end Actionlint
